import Mathlib

/-!
Shallow embedding of the bounded log store and incremental filtering engine
declared in `src/tools/rxtools/src/rxtools/rosout_panel.h` (class
`rxtools::RosoutPanel`).  The header is a declaration file: the member
functions' bodies live in a `.cpp` file that is not part of the sources, so
the behaviour of each operation is modelled from the specification
(`spec.md`), keeping the header's names (`processMessage`, `refilter`,
`popMessage`, `setBufferSize`, `setInclude`, `setExclude`, `onRegexChecked`,
`onProcessTimer`, `incomingMessage`, `messages_`, `ordered_messages_`,
`max_messages_`, `message_id_counter_`, `needs_refilter_`,
`refilter_timer_`, `use_regex_`, `valid_include_regex_`) wherever Lean
allows.  Machine integers (`uint32_t` ids and sizes) are modelled as `Nat`;
the spec puts counter wraparound out of scope.  The `float` debounce
accumulator `refilter_timer_` is modelled as `Nat` milliseconds.
-/

namespace Rosout

/-! ## Literal substring matching (std::string::find != npos) -/

/-- Does the first list occur as a leading block of the second? -/
def startsWithL : List Char → List Char → Bool
  | [], _ => true
  | _ :: _, [] => false
  | a :: as, b :: bs => a == b && startsWithL as bs

/-- Does `p` occur as a contiguous block anywhere in `s`? -/
def substrAux (p : List Char) : List Char → Bool
  | [] => p.isEmpty
  | c :: rest => startsWithL p (c :: rest) || substrAux p rest

/-- Case-sensitive substring containment, the literal (non-regex) matching
mode: `s.find(pat) != std::string::npos`. -/
def containsSub (pat s : String) : Bool :=
  substrAux pat.toList s.toList

/-! ## Log records -/

/-- Modelled from the spec: a `LogRecord` (the payload of `roslib::Log`)
has a severity level, an origin name, a free-text message body, and a fixed
set of auxiliary string fields, each independently searchable.  The unique
identifier is assigned by the store at insertion, so it is not a field of
the record itself. -/
structure LogRecord where
  severity : Nat
  name : String
  msg : String
  aux : List String
deriving DecidableEq

/-- The searchable text fields of a record.  Always nonempty: the name and
the message body are always present. -/
def recFields (r : LogRecord) : List String :=
  r.name :: r.msg :: r.aux

/-! ## Abstract regex engine

`boost::regex` is an external library, not code of this repository; it is
abstracted as an engine supplying pattern validity (compilation success) and
first-match search. -/

/-- Modelled from the spec: the regular-expression collaborator
(`boost::regex`, external).  `valid pat` is whether compiling `pat`
succeeds; `search pat s` is first-match search (not full match) of the
compiled `pat` in `s`. -/
structure RegexEngine where
  valid : String → Bool
  search : String → String → Bool

/-- A concrete engine used to exercise the model: every pattern other than
the unbalanced `"("` compiles, and search is substring search. -/
def demoEngine : RegexEngine where
  valid := fun p => !(p == "(")
  search := fun p s => containsSub p s

/-! ## PatternMatcher -/

/-- Error reported when a supplied regex pattern fails to compile. -/
inductive CompileError where
  | invalidPattern
deriving DecidableEq

/-- Modelled from the spec: a compiled matcher is a tagged variant over
literal-substring and regex interpretation; a compiled regex is represented
by the pattern it was compiled from. -/
inductive Matcher where
  | literal (pat : String)
  | regex (pat : String)
deriving DecidableEq

/-- Modelled from the spec: `PatternMatcher.compile` — compiling an invalid
regex pattern reports `InvalidPattern`; literal patterns always compile. -/
def compile (eng : RegexEngine) (pat : String) (useRegex : Bool) :
    Except CompileError Matcher :=
  if useRegex then
    if eng.valid pat then .ok (.regex pat) else .error .invalidPattern
  else .ok (.literal pat)

/-- Evaluate one matcher against one string. -/
def matches1 (eng : RegexEngine) : Matcher → String → Bool
  | .literal p, s => containsSub p s
  | .regex p, s => eng.search p s

/-- Modelled from the spec: `matchesAny(matcher, fields)` is true iff the
matcher matches at least one field (any single hit short-circuits). -/
def matchesAny (eng : RegexEngine) (m : Matcher) (strs : List String) : Bool :=
  strs.any (matches1 eng m)

/-! ## FilterEngine state

The filter-related members of `RosoutPanel`: `include_filter_`,
`exclude_filter_`, `use_regex_`, `include_regex_`, `exclude_regex_`,
`valid_include_regex_`, `valid_exclude_regex_`, `needs_refilter_`,
`refilter_timer_`. -/

/-- The filter criterion state of the panel.  `includeRegex` /
`excludeRegex` are the cached compiled regexes (represented by the pattern
they were compiled from); `validInclude` / `validExclude` mirror
`valid_include_regex_` / `valid_exclude_regex_`. -/
structure FilterState where
  includeFilter : String
  excludeFilter : String
  useRegex : Bool
  includeRegex : String
  excludeRegex : String
  validInclude : Bool
  validExclude : Bool
  needsRefilter : Bool
  refilterTimer : Nat
deriving DecidableEq

/-- The initial filter state: empty patterns, literal mode. -/
def initFilterState : FilterState where
  includeFilter := ""
  excludeFilter := ""
  useRegex := false
  includeRegex := ""
  excludeRegex := ""
  validInclude := true
  validExclude := true
  needsRefilter := false
  refilterTimer := 0

/-- Modelled from the spec: `include(const std::string&)` — should this
string be included?  An empty include pattern matches everything; otherwise
the shared `use_regex_` flag selects regex search on the cached compiled
include regex versus literal substring matching. -/
def includeStr (eng : RegexEngine) (fs : FilterState) (s : String) : Bool :=
  if fs.includeFilter = "" then true
  else if fs.useRegex then eng.search fs.includeRegex s
  else containsSub fs.includeFilter s

/-- Modelled from the spec: `exclude(const std::string&)` — should this
string be excluded?  An empty exclude pattern matches nothing. -/
def excludeStr (eng : RegexEngine) (fs : FilterState) (s : String) : Bool :=
  if fs.excludeFilter = "" then false
  else if fs.useRegex then eng.search fs.excludeRegex s
  else containsSub fs.excludeFilter s

/-- `include(const V_string&)`: true if any string matches the include
criterion. -/
def includeAny (eng : RegexEngine) (fs : FilterState) (strs : List String) : Bool :=
  strs.any (includeStr eng fs)

/-- `exclude(const V_string&)`: true if any string matches the exclude
criterion. -/
def excludeAny (eng : RegexEngine) (fs : FilterState) (strs : List String) : Bool :=
  strs.any (excludeStr eng fs)

/-- Modelled from the spec: the passing rule applied to one record —
`passes(record) = matchesAny(include, fields) AND NOT matchesAny(exclude,
fields)`, evaluated over the record's searchable fields. -/
def filterRec (eng : RegexEngine) (fs : FilterState) (r : LogRecord) : Bool :=
  includeAny eng fs (recFields r) && !(excludeAny eng fs (recFields r))

/-- Modelled from the spec: `setInclude` — compile the new pattern under the
current mode; on success replace the include criterion, mark the engine
dirty and reset the debounce accumulator; on `InvalidPattern` retain the
previous matcher, clear `valid_include_regex_`, and do not schedule a
rebuild. -/
def setInclude (eng : RegexEngine) (fs : FilterState) (pat : String) : FilterState :=
  match compile eng pat fs.useRegex with
  | .ok (.regex p) =>
      { fs with includeFilter := pat, includeRegex := p, validInclude := true,
                needsRefilter := true, refilterTimer := 0 }
  | .ok (.literal _) =>
      { fs with includeFilter := pat, validInclude := true,
                needsRefilter := true, refilterTimer := 0 }
  | .error _ => { fs with validInclude := false }

/-- Modelled from the spec: `setExclude`, symmetric to `setInclude`. -/
def setExclude (eng : RegexEngine) (fs : FilterState) (pat : String) : FilterState :=
  match compile eng pat fs.useRegex with
  | .ok (.regex p) =>
      { fs with excludeFilter := pat, excludeRegex := p, validExclude := true,
                needsRefilter := true, refilterTimer := 0 }
  | .ok (.literal _) =>
      { fs with excludeFilter := pat, validExclude := true,
                needsRefilter := true, refilterTimer := 0 }
  | .error _ => { fs with validExclude := false }

/-- Modelled from the spec: `onRegexChecked` — the single shared
`use_regex_` flag is set for both criteria at once; entering regex mode
compiles both current patterns (retaining a previous compiled regex when a
pattern does not compile), and the change marks the engine dirty. -/
def onRegexChecked (eng : RegexEngine) (fs : FilterState) (checked : Bool) : FilterState :=
  if checked then
    { fs with useRegex := true,
              includeRegex := if eng.valid fs.includeFilter then fs.includeFilter
                              else fs.includeRegex,
              validInclude := eng.valid fs.includeFilter,
              excludeRegex := if eng.valid fs.excludeFilter then fs.excludeFilter
                              else fs.excludeRegex,
              validExclude := eng.valid fs.excludeFilter,
              needsRefilter := true, refilterTimer := 0 }
  else
    { fs with useRegex := false, needsRefilter := true, refilterTimer := 0 }

/-! ## Debounced rebuild gate -/

/-- Modelled from the spec: the per-tick check of the dirty flag
`needs_refilter_` and the accumulator `refilter_timer_`.  `delta` is the
time since the previous tick.  Returns the updated filter state and whether
a rebuild fires on this tick: it fires only when a rebuild is pending and
the accumulated time since the last criterion edit has reached the debounce
`interval`; firing clears the dirty flag and resets the accumulator. -/
def refilterGate (interval delta : Nat) (fs : FilterState) : FilterState × Bool :=
  if fs.needsRefilter then
    let t := fs.refilterTimer + delta
    if interval ≤ t then
      ({ fs with needsRefilter := false, refilterTimer := 0 }, true)
    else
      ({ fs with refilterTimer := t }, false)
  else (fs, false)

/-- Run the gate over a sequence of ticks (with the given inter-tick
delays), counting how many rebuilds fire. -/
def runGate (interval : Nat) : List Nat → FilterState → FilterState × Nat
  | [], fs => (fs, 0)
  | delta :: rest, fs =>
      let g := refilterGate interval delta fs
      let r := runGate interval rest g.1
      (r.1, (if g.2 then 1 else 0) + r.2)

/-- Sum of a list of tick delays. -/
def sumL : List Nat → Nat
  | [] => 0
  | d :: rest => d + sumL rest

/-! ## LogStore

The storage members of `RosoutPanel`: `messages_` (the id-to-record map,
whose iteration order is key order and therefore arrival order since ids
are assigned monotonically), `message_id_counter_`, `max_messages_`, plus
the spec's explicit ordered sequence of live identifiers (oldest first). -/

/-- Boolean membership in a list of identifiers. -/
def memB (x : Nat) : List Nat → Bool
  | [] => false
  | y :: rest => x == y || memB x rest

/-- Modelled from the spec: the bounded, id-indexed store.  `messages` is
the id-to-record mapping `messages_` kept in key (= arrival) order;
`liveOrder` is the explicit ordered sequence of live identifiers (oldest
first); `messageIdCounter` is `message_id_counter_`; `maxMessages` is
`max_messages_`. -/
structure LogStore where
  messages : List (Nat × LogRecord)
  liveOrder : List Nat
  messageIdCounter : Nat
  maxMessages : Nat
deriving DecidableEq

/-- The empty store with capacity `c`. -/
def initStore (c : Nat) : LogStore where
  messages := []
  liveOrder := []
  messageIdCounter := 0
  maxMessages := c

/-- `get(id)`: the record stored under `id`, or `NotFound` (`none`). -/
def get (s : LogStore) (id : Nat) : Option LogRecord :=
  (s.messages.find? (fun e => e.1 == id)).map Prod.snd

/-- Modelled from the spec: `popMessage` at the store level — remove the
oldest live record: the one at the front of the ordered live sequence.
Returns the store and the evicted identifiers (empty when already empty). -/
def popOldest (s : LogStore) : LogStore × List Nat :=
  match s.liveOrder with
  | [] => (s, [])
  | id :: rest =>
      ({ s with messages := s.messages.filter (fun e => !(e.1 == id)),
                liveOrder := rest }, [id])

/-- Evict from the front while the size exceeds the capacity, with explicit
fuel; returns the store and the evicted identifiers in eviction order. -/
def evictN : Nat → LogStore → LogStore × List Nat
  | 0, s => (s, [])
  | n + 1, s =>
      if s.maxMessages < s.liveOrder.length then
        let p := popOldest s
        let r := evictN n p.1
        (r.1, p.2 ++ r.2)
      else (s, [])

/-- Modelled from the spec: `insert(record)` — assign the next identifier
from the monotonic counter, append to the mapping and the ordered sequence,
then evict from the front while the size exceeds the capacity.  Returns the
store, the new identifier, and the evicted identifiers. -/
def insert (s : LogStore) (r : LogRecord) : LogStore × Nat × List Nat :=
  let id := s.messageIdCounter
  let s1 : LogStore :=
    { s with messages := s.messages ++ [(id, r)],
             liveOrder := s.liveOrder ++ [id],
             messageIdCounter := id + 1 }
  let e := evictN s1.liveOrder.length s1
  (e.1, id, e.2)

/-- Error reported when the store capacity is set to an illegal value. -/
inductive ConfigError where
  | invalidConfiguration
deriving DecidableEq

/-- Modelled from the spec: `setCapacity(c)` — a capacity of zero (or, for
the signed view of the argument, a negative one) is rejected as
`InvalidConfiguration`; otherwise the capacity is updated and any overflow
is immediately evicted, returning the evicted identifiers. -/
def setCapacity (s : LogStore) (c : Nat) : Except ConfigError (LogStore × List Nat) :=
  if c = 0 then .error .invalidConfiguration
  else
    let s1 : LogStore := { s with maxMessages := c }
    .ok (evictN s1.liveOrder.length s1)

/-- Modelled from the spec: `clear()` on the store — empty both the mapping
and the ordered sequence, returning all previously live identifiers as
evicted. -/
def clearStore (s : LogStore) : LogStore × List Nat :=
  ({ s with messages := [], liveOrder := [] }, s.liveOrder)

/-! ## Panel state: store + filtered view + filter engine -/

/-- The panel state relevant to the store/filter core: the store, the
filtered view `ordered_messages_`, and the filter criterion state. -/
structure Panel where
  store : LogStore
  orderedMessages : List Nat
  fs : FilterState
deriving DecidableEq

/-- The initial panel with store capacity `c`. -/
def initPanel (c : Nat) : Panel where
  store := initStore c
  orderedMessages := []
  fs := initFilterState

/-- Modelled from the spec: `notifyInserted(id, record)` — evaluate the
record against the current criteria and append its id to the filtered view
if it passes. -/
def notifyInserted (eng : RegexEngine) (fs : FilterState) (view : List Nat)
    (id : Nat) (r : LogRecord) : List Nat :=
  if filterRec eng fs r then view ++ [id] else view

/-- Modelled from the spec: `notifyEvicted(ids)` — remove each evicted id
from the filtered view, preserving the order of the remainder. -/
def notifyEvicted (view : List Nat) (ids : List Nat) : List Nat :=
  view.filter (fun v => !(memB v ids))

/-- `filter(id)`: look the id up in the store and apply the passing rule to
its record; an unknown or evicted id does not pass. -/
def filterId (eng : RegexEngine) (fs : FilterState) (s : LogStore) (id : Nat) : Bool :=
  match get s id with
  | some r => filterRec eng fs r
  | none => false

/-- Modelled from the spec: `refilter()` — the full rebuild: clear the
filtered view and re-evaluate every live record in store order. -/
def refilter (eng : RegexEngine) (p : Panel) : Panel :=
  { p with orderedMessages :=
      p.store.liveOrder.filter (fun id => filterId eng p.fs p.store id) }

/-- The live records of the store in live order, paired with their ids. -/
def liveRecords (s : LogStore) : List (Nat × LogRecord) :=
  s.liveOrder.filterMap (fun id => (get s id).map (fun r => (id, r)))

/-- Modelled from the spec: `processMessage(message)` — insert the record
into the store (assigning its id and evicting any overflow), run the
incremental filter path on the new record, and drop any evicted ids from
the filtered view. -/
def processMessage (eng : RegexEngine) (p : Panel) (r : LogRecord) : Panel :=
  let e := insert p.store r
  let v1 := notifyInserted eng p.fs p.orderedMessages e.2.1 r
  { p with store := e.1, orderedMessages := notifyEvicted v1 e.2.2 }

/-- `processMessages()`: drain a batch of queued records in arrival
order. -/
def processMessages (eng : RegexEngine) (p : Panel) (msgs : List LogRecord) : Panel :=
  msgs.foldl (processMessage eng) p

/-- Modelled from the spec: `popMessage` at the panel level — remove the
oldest message from the store and drop it from the filtered view. -/
def popMessage (p : Panel) : Panel :=
  let e := popOldest p.store
  { p with store := e.1, orderedMessages := notifyEvicted p.orderedMessages e.2 }

/-- Modelled from the spec: `setBufferSize(size)` — set the store capacity;
zero is rejected as `InvalidConfiguration`, otherwise overflow is evicted
and the evicted ids are dropped from the filtered view. -/
def setBufferSize (p : Panel) (n : Nat) : Except ConfigError Panel :=
  match setCapacity p.store n with
  | .error e => .error e
  | .ok e =>
      .ok { p with store := e.1, orderedMessages := notifyEvicted p.orderedMessages e.2 }

/-- `setBufferSize` as a total transition: on rejection the panel is left
unchanged. -/
def applyBufferSize (p : Panel) (n : Nat) : Panel :=
  match setBufferSize p n with
  | .ok q => q
  | .error _ => p

/-- Modelled from the spec: `clear()` — empty the store and the filtered
view together. -/
def clearPanel (p : Panel) : Panel :=
  { p with store := (clearStore p.store).1, orderedMessages := [] }

/-- Modelled from the spec: `onProcessTimer` — one consumer tick: drain the
queued records, then run the debounce gate and, when it fires, perform the
full rebuild once. -/
def onProcessTimer (eng : RegexEngine) (interval delta : Nat)
    (msgs : List LogRecord) (p : Panel) : Panel :=
  let p0 := processMessages eng p msgs
  let g := refilterGate interval delta p0.fs
  let p1 : Panel := { p0 with fs := g.1 }
  if g.2 then refilter eng p1 else p1

/-! ## Reachable panel states -/

/-- One consumer-context transition of the panel. -/
inductive Step (eng : RegexEngine) : Panel → Panel → Prop
  | process (p : Panel) (r : LogRecord) : Step eng p (processMessage eng p r)
  | timer (p : Panel) (interval delta : Nat) (msgs : List LogRecord) :
      Step eng p (onProcessTimer eng interval delta msgs p)
  | refilterStep (p : Panel) : Step eng p (refilter eng p)
  | pop (p : Panel) : Step eng p (popMessage p)
  | bufferSize (p : Panel) (n : Nat) : Step eng p (applyBufferSize p n)
  | clearStep (p : Panel) : Step eng p (clearPanel p)
  | includeEdit (p : Panel) (pat : String) :
      Step eng p { p with fs := setInclude eng p.fs pat }
  | excludeEdit (p : Panel) (pat : String) :
      Step eng p { p with fs := setExclude eng p.fs pat }
  | regexToggle (p : Panel) (b : Bool) :
      Step eng p { p with fs := onRegexChecked eng p.fs b }

/-- The panel states reachable from the initial panel with capacity `c`. -/
inductive Reachable (eng : RegexEngine) (c : Nat) : Panel → Prop
  | init : Reachable eng c (initPanel c)
  | step {p q : Panel} : Reachable eng c p → Step eng p q → Reachable eng c q

/-! ## Well-formedness invariants -/

/-- The structural invariant of the store: the keys of the mapping, read in
iteration order, are exactly the ordered live sequence; the live sequence is
strictly increasing (ids are assigned monotonically); and every live id is
below the id counter. -/
structure StoreWF (s : LogStore) : Prop where
  keysEq : s.messages.map Prod.fst = s.liveOrder
  ordered : s.liveOrder.Pairwise (· < ·)
  bounded : ∀ i ∈ s.liveOrder, i < s.messageIdCounter

/-- The panel invariant: a well-formed store, the filtered view a
subsequence of the live order, the size within the capacity, and a positive
capacity. -/
structure PanelWF (p : Panel) : Prop where
  store : StoreWF p.store
  viewSub : p.orderedMessages.Sublist p.store.liveOrder
  sizeLe : p.store.liveOrder.length ≤ p.store.maxMessages
  capPos : 1 ≤ p.store.maxMessages

/-! ## IngestionBuffer

`message_queue_` together with its guarding mutex is the staging queue
between the producer callback `incomingMessage` and the consumer tick.  The
mutual-exclusion discipline itself is a concurrency concern outside the
shallow embedding; the queue content, the bound and the drop-oldest
overflow policy are modelled here. -/

/-- Modelled from the spec: the bounded staging queue (`message_queue_`),
with its logical capacity and the count of dropped records exposed for
observability. -/
structure IngestionBuffer where
  queue : List LogRecord
  capacity : Nat
  droppedCount : Nat
deriving DecidableEq

/-- Modelled from the spec: `incomingMessage` — the producer callback
appends the record; on overflow the oldest buffered records are dropped and
counted.  The operation is total: it cannot fail. -/
def incomingMessage (buf : IngestionBuffer) (r : LogRecord) : IngestionBuffer :=
  let q := buf.queue ++ [r]
  let overflow := q.length - buf.capacity
  { buf with queue := q.drop overflow, droppedCount := buf.droppedCount + overflow }

/-- The producer-facing result channel of `incomingMessage`: it always
succeeds — no error is ever raised toward the producer. -/
def incomingMessageE (buf : IngestionBuffer) (r : LogRecord) :
    Except String IngestionBuffer :=
  .ok (incomingMessage buf r)

/-! ## Concrete data used to exercise the model -/

/-- Fold a batch of records through `insert`, keeping only the store. -/
def insertAll (s : LogStore) (rs : List LogRecord) : LogStore :=
  rs.foldl (fun s r => (insert s r).1) s

/-- Demo record A. -/
def recA : LogRecord := { severity := 2, name := "nodeA", msg := "A", aux := [] }

/-- Demo record B. -/
def recB : LogRecord := { severity := 2, name := "nodeB", msg := "B", aux := [] }

/-- Demo record C. -/
def recC : LogRecord := { severity := 2, name := "nodeC", msg := "C", aux := [] }

/-- Demo record D. -/
def recD : LogRecord := { severity := 2, name := "nodeD", msg := "D", aux := [] }

/-- A store at capacity 3 holding A, B, C. -/
def demoStore3 : LogStore := insertAll (initStore 3) [recA, recB, recC]

/-- A filter state in regex mode with empty patterns. -/
def demoRegexFS : FilterState := { initFilterState with useRegex := true }

/-- A filter state with nonempty literal patterns. -/
def demoLitFS : FilterState :=
  { initFilterState with includeFilter := "ERROR", excludeFilter := "debug" }

/-- A filter state with a pending rebuild and a cleared accumulator. -/
def demoPendingFS : FilterState := { initFilterState with needsRefilter := true }

/-- The panel after processing record A with capacity 3. -/
def demoPanelA : Panel := processMessage demoEngine (initPanel 3) recA

/-- The panel after processing records A, B, C with capacity 3. -/
def demoPanelABC : Panel :=
  processMessage demoEngine
    (processMessage demoEngine (processMessage demoEngine (initPanel 3) recA) recB) recC

/-! ## Helper lemmas -/

theorem memB_iff (x : Nat) (l : List Nat) : memB x l = true ↔ x ∈ l := by
  induction l with
  | nil => simp [memB]
  | cons y t ih => simp [memB, ih]

theorem filter_not_memB_append (l₁ l₂ : List Nat) (hd : ∀ x ∈ l₂, x ∉ l₁) :
    (l₁ ++ l₂).filter (fun v => !(memB v l₁)) = l₂ := by
  rw [List.filter_append]
  have h1 : l₁.filter (fun v => !(memB v l₁)) = [] := by
    rw [List.filter_eq_nil_iff]
    intro a ha
    simp [memB_iff, ha]
  have h2 : l₂.filter (fun v => !(memB v l₁)) = l₂ := by
    rw [List.filter_eq_self]
    intro a ha
    have : memB a l₁ = false :=
      Bool.eq_false_iff.mpr (fun hb => hd a ha ((memB_iff a l₁).mp hb))
    simp [this]
  rw [h1, h2, List.nil_append]

theorem notifyEvicted_take_sublist {view order : List Nat} (k : Nat)
    (hv : view.Sublist order) (hnd : order.Nodup) :
    (notifyEvicted view (order.take k)).Sublist (order.drop k) := by
  have hd : ∀ x ∈ order.drop k, x ∉ order.take k := by
    intro x hxd hxt
    exact (List.disjoint_take_drop hnd le_rfl) hxt hxd
  have heq := filter_not_memB_append (order.take k) (order.drop k) hd
  rw [List.take_append_drop] at heq
  have hsub := List.Sublist.filter (fun v => !(memB v (order.take k))) hv
  rw [heq] at hsub
  exact hsub

theorem filter_keys_of_not_mem (m : List (Nat × LogRecord)) (id : Nat)
    (h : id ∉ m.map Prod.fst) : m.filter (fun e => !(e.1 == id)) = m := by
  rw [List.filter_eq_self]
  intro e he
  have hne : e.1 ≠ id := fun hh => h (hh ▸ List.mem_map_of_mem Prod.fst he)
  simp [hne]

theorem map_fst_filter_cons (m : List (Nat × LogRecord)) (id : Nat) (rest : List Nat)
    (h : m.map Prod.fst = id :: rest) (hnm : id ∉ rest) :
    (m.filter (fun e => !(e.1 == id))).map Prod.fst = rest := by
  cases m with
  | nil => simp at h
  | cons e m' =>
    simp only [List.map_cons] at h
    injection h with h1 h2
    have hp : (!(e.1 == id)) = false := by simp [h1]
    rw [List.filter_cons, hp]
    simp only [if_neg (by simp : ¬ (false = true))]
    rw [filter_keys_of_not_mem m' id (by rw [h2]; exact hnm)]
    exact h2

theorem popOldest_nil {s : LogStore} (h : s.liveOrder = []) : popOldest s = (s, []) := by
  simp [popOldest, h]

theorem popOldest_cons {s : LogStore} {id : Nat} {rest : List Nat}
    (h : s.liveOrder = id :: rest) :
    (popOldest s).1.liveOrder = rest ∧ (popOldest s).2 = [id]
      ∧ (popOldest s).1.messages = s.messages.filter (fun e => !(e.1 == id))
      ∧ (popOldest s).1.messageIdCounter = s.messageIdCounter
      ∧ (popOldest s).1.maxMessages = s.maxMessages := by
  simp [popOldest, h]

theorem popOldest_counter (s : LogStore) :
    (popOldest s).1.messageIdCounter = s.messageIdCounter := by
  cases h : s.liveOrder <;> simp [popOldest, h]

theorem popOldest_max (s : LogStore) :
    (popOldest s).1.maxMessages = s.maxMessages := by
  cases h : s.liveOrder <;> simp [popOldest, h]

theorem popOldest_wf {s : LogStore} (h : StoreWF s) : StoreWF (popOldest s).1 := by
  cases hord : s.liveOrder with
  | nil => rw [popOldest_nil hord]; exact h
  | cons id rest =>
    have hord' : (id :: rest).Pairwise (· < ·) := hord ▸ h.ordered
    have hnm : id ∉ rest := by
      intro hmem
      exact Nat.lt_irrefl id ((List.pairwise_cons.mp hord').1 id hmem)
    obtain ⟨ho, he, hm, hc, hx⟩ := popOldest_cons hord
    refine ⟨?_, ?_, ?_⟩
    · rw [hm, ho]
      exact map_fst_filter_cons _ _ _ (by rw [h.keysEq, hord]) hnm
    · rw [ho]
      exact (List.pairwise_cons.mp hord').2
    · intro i hi
      rw [ho] at hi
      rw [hc]
      exact h.bounded i (by rw [hord]; exact List.mem_cons_of_mem id hi)

theorem evictN_max : ∀ (fuel : Nat) (s : LogStore),
    (evictN fuel s).1.maxMessages = s.maxMessages := by
  intro fuel
  induction fuel with
  | zero => intro s; rfl
  | succ n ih =>
    intro s
    by_cases h : s.maxMessages < s.liveOrder.length
    · simp only [evictN, if_pos h]
      rw [ih (popOldest s).1, popOldest_max]
    · simp only [evictN, if_neg h]

theorem evictN_counter : ∀ (fuel : Nat) (s : LogStore),
    (evictN fuel s).1.messageIdCounter = s.messageIdCounter := by
  intro fuel
  induction fuel with
  | zero => intro s; rfl
  | succ n ih =>
    intro s
    by_cases h : s.maxMessages < s.liveOrder.length
    · simp only [evictN, if_pos h]
      rw [ih (popOldest s).1, popOldest_counter]
    · simp only [evictN, if_neg h]

theorem evictN_shape : ∀ (fuel : Nat) (s : LogStore),
    ∃ k, (evictN fuel s).2 = s.liveOrder.take k
      ∧ (evictN fuel s).1.liveOrder = s.liveOrder.drop k := by
  intro fuel
  induction fuel with
  | zero => intro s; exact ⟨0, by simp [evictN]⟩
  | succ n ih =>
    intro s
    by_cases h : s.maxMessages < s.liveOrder.length
    · cases hord : s.liveOrder with
      | nil => rw [hord] at h; simp at h
      | cons id rest =>
        obtain ⟨ho, he, _, _, _⟩ := popOldest_cons hord
        obtain ⟨k, hk1, hk2⟩ := ih (popOldest s).1
        refine ⟨k + 1, ?_, ?_⟩
        · simp only [evictN, if_pos h]
          rw [he, hk1, ho]
          simp [List.take_succ_cons]
        · simp only [evictN, if_pos h]
          rw [hk2, ho]
          simp [List.drop_succ_cons]
    · exact ⟨0, by simp only [evictN, if_neg h]; simp⟩

theorem evictN_wf : ∀ (fuel : Nat) {s : LogStore}, StoreWF s → StoreWF (evictN fuel s).1 := by
  intro fuel
  induction fuel with
  | zero => intro s h; exact h
  | succ n ih =>
    intro s h
    by_cases hc : s.maxMessages < s.liveOrder.length
    · simp only [evictN, if_pos hc]
      exact ih (popOldest_wf h)
    · simp only [evictN, if_neg hc]
      exact h

theorem evictN_le : ∀ (fuel : Nat) (s : LogStore),
    s.liveOrder.length ≤ s.maxMessages + fuel →
    (evictN fuel s).1.liveOrder.length ≤ s.maxMessages := by
  intro fuel
  induction fuel with
  | zero => intro s h; simpa [evictN] using h
  | succ n ih =>
    intro s h
    by_cases hc : s.maxMessages < s.liveOrder.length
    · cases hord : s.liveOrder with
      | nil => rw [hord] at hc; simp at hc
      | cons id rest =>
        obtain ⟨ho, _, _, _, hx⟩ := popOldest_cons hord
        simp only [evictN, if_pos hc]
        have hlen : (popOldest s).1.liveOrder.length
            ≤ (popOldest s).1.maxMessages + n := by
          rw [ho, hx]
          rw [hord] at h
          simp only [List.length_cons] at h
          omega
        have hle := ih (popOldest s).1 hlen
        rw [hx] at hle
        exact hle
    · simp only [evictN, if_neg hc]
      omega

theorem evictN_of_le {s : LogStore} (fuel : Nat)
    (h : s.liveOrder.length ≤ s.maxMessages) : evictN fuel s = (s, []) := by
  cases fuel with
  | zero => rfl
  | succ n => simp only [evictN, if_neg (Nat.not_lt.mpr h)]

theorem append_counter_pairwise {s : LogStore} (h : StoreWF s) :
    (s.liveOrder ++ [s.messageIdCounter]).Pairwise (· < ·) := by
  rw [List.pairwise_append]
  refine ⟨h.ordered, List.pairwise_singleton _ _, ?_⟩
  intro a ha b hb
  simp only [List.mem_singleton] at hb
  subst hb
  exact h.bounded a ha

theorem append_record_wf {s : LogStore} (r : LogRecord) (h : StoreWF s) :
    StoreWF { s with
      messages := s.messages ++ [(s.messageIdCounter, r)],
      liveOrder := s.liveOrder ++ [s.messageIdCounter],
      messageIdCounter := s.messageIdCounter + 1 } := by
  refine ⟨?_, ?_, ?_⟩
  · simp [h.keysEq]
  · exact append_counter_pairwise h
  · intro i hi
    dsimp only at hi ⊢
    simp only [List.mem_append, List.mem_singleton] at hi
    rcases hi with hi | hi
    · exact Nat.lt_succ_of_lt (h.bounded i hi)
    · omega

theorem insert_wf {s : LogStore} (r : LogRecord) (h : StoreWF s) :
    StoreWF (insert s r).1 := by
  simpa only [insert] using evictN_wf _ (append_record_wf r h)

theorem insert_max (s : LogStore) (r : LogRecord) :
    (insert s r).1.maxMessages = s.maxMessages := by
  simp only [insert]
  rw [evictN_max]

theorem insert_counter (s : LogStore) (r : LogRecord) :
    (insert s r).1.messageIdCounter = s.messageIdCounter + 1 := by
  simp only [insert]
  rw [evictN_counter]

theorem insert_size (s : LogStore) (r : LogRecord) :
    (insert s r).1.liveOrder.length ≤ s.maxMessages := by
  simp only [insert]
  exact evictN_le _ _ (Nat.le_add_left _ _)

theorem insert_shape (s : LogStore) (r : LogRecord) :
    ∃ k, (insert s r).2.2 = (s.liveOrder ++ [s.messageIdCounter]).take k
      ∧ (insert s r).1.liveOrder = (s.liveOrder ++ [s.messageIdCounter]).drop k := by
  simp only [insert]
  exact evictN_shape _ _

theorem evictN_one_over {s : LogStore} (fuel : Nat)
    (hlen : s.liveOrder.length = s.maxMessages + 1) :
    (evictN (fuel + 1) s).2 = s.liveOrder.take 1 := by
  cases hord : s.liveOrder with
  | nil => rw [hord] at hlen; simp at hlen
  | cons id rest =>
    obtain ⟨ho, he, _, _, hx⟩ := popOldest_cons hord
    have hcond : s.maxMessages < s.liveOrder.length := by omega
    simp only [evictN, if_pos hcond]
    have hrest : (popOldest s).1.liveOrder.length ≤ (popOldest s).1.maxMessages := by
      rw [ho, hx]
      rw [hord] at hlen
      simp only [List.length_cons] at hlen
      omega
    rw [evictN_of_le fuel hrest, he]
    simp

theorem insert_evicts_oldest {s : LogStore} (r : LogRecord)
    (hfull : s.liveOrder.length = s.maxMessages) (hpos : 1 ≤ s.maxMessages) :
    (insert s r).2.2 = s.liveOrder.take 1 := by
  simp only [insert]
  rw [List.length_append, List.length_singleton]
  rw [evictN_one_over]
  · dsimp only
    rw [List.take_append_of_le_length (by omega)]
  · dsimp only
    rw [List.length_append, List.length_singleton, hfull]

theorem insertAll_max : ∀ (rs : List LogRecord) (s : LogStore),
    (insertAll s rs).maxMessages = s.maxMessages := by
  intro rs
  induction rs with
  | nil => intro s; rfl
  | cons r rest ih =>
    intro s
    show (insertAll (insert s r).1 rest).maxMessages = s.maxMessages
    rw [ih, insert_max]

theorem insertAll_wf : ∀ (rs : List LogRecord) {s : LogStore}, StoreWF s →
    StoreWF (insertAll s rs) := by
  intro rs
  induction rs with
  | nil => intro s h; exact h
  | cons r rest ih =>
    intro s h
    exact ih (insert_wf r h)

theorem insertAll_size : ∀ (rs : List LogRecord) (s : LogStore),
    s.liveOrder.length ≤ s.maxMessages →
    (insertAll s rs).liveOrder.length ≤ s.maxMessages := by
  intro rs
  induction rs with
  | nil => intro s h; exact h
  | cons r rest ih =>
    intro s h
    show (insertAll (insert s r).1 rest).liveOrder.length ≤ s.maxMessages
    have := ih (insert s r).1 (by rw [insert_max]; exact insert_size s r)
    rw [insert_max] at this
    exact this

theorem pairwise_lt_nodup {l : List Nat} (h : l.Pairwise (· < ·)) : l.Nodup :=
  h.imp (fun hab => Nat.ne_of_lt hab)

theorem processMessage_wf {p : Panel} (eng : RegexEngine) (r : LogRecord)
    (h : PanelWF p) : PanelWF (processMessage eng p r) := by
  obtain ⟨k, hk1, hk2⟩ := insert_shape p.store r
  have hord1 : (p.store.liveOrder ++ [p.store.messageIdCounter]).Pairwise (· < ·) :=
    append_counter_pairwise h.store
  refine ⟨?_, ?_, ?_, ?_⟩
  · exact insert_wf r h.store
  · show (notifyEvicted
        (notifyInserted eng p.fs p.orderedMessages (insert p.store r).2.1 r)
        (insert p.store r).2.2).Sublist (insert p.store r).1.liveOrder
    rw [hk1, hk2]
    have hins : (insert p.store r).2.1 = p.store.messageIdCounter := by
      simp [insert]
    apply notifyEvicted_take_sublist k ?_ (pairwise_lt_nodup hord1)
    rw [hins]
    unfold notifyInserted
    by_cases hf : filterRec eng p.fs r
    · rw [if_pos hf]
      exact List.Sublist.append h.viewSub (List.Sublist.refl _)
    · rw [if_neg hf]
      exact h.viewSub.trans (List.sublist_append_left _ _)
  · show (insert p.store r).1.liveOrder.length ≤ (insert p.store r).1.maxMessages
    rw [insert_max]
    exact insert_size p.store r
  · show 1 ≤ (insert p.store r).1.maxMessages
    rw [insert_max]
    exact h.capPos

theorem processMessages_wf (eng : RegexEngine) :
    ∀ (msgs : List LogRecord) {p : Panel}, PanelWF p →
    PanelWF (processMessages eng p msgs) := by
  intro msgs
  induction msgs with
  | nil => intro p h; exact h
  | cons r rest ih =>
    intro p h
    exact ih (processMessage_wf eng r h)

theorem refilter_wf {p : Panel} (eng : RegexEngine) (h : PanelWF p) :
    PanelWF (refilter eng p) := by
  refine ⟨h.store, ?_, h.sizeLe, h.capPos⟩
  exact List.filter_sublist _

theorem fsUpdate_wf {p : Panel} (fs' : FilterState) (h : PanelWF p) :
    PanelWF { p with fs := fs' } :=
  ⟨h.store, h.viewSub, h.sizeLe, h.capPos⟩

theorem popMessage_wf {p : Panel} (h : PanelWF p) : PanelWF (popMessage p) := by
  refine ⟨popOldest_wf h.store, ?_, ?_, ?_⟩
  · show (notifyEvicted p.orderedMessages (popOldest p.store).2).Sublist
        (popOldest p.store).1.liveOrder
    cases hord : p.store.liveOrder with
    | nil =>
      rw [popOldest_nil hord]
      have : notifyEvicted p.orderedMessages [] = p.orderedMessages := by
        simp [notifyEvicted, memB]
      rw [this]
      exact h.viewSub
    | cons id rest =>
      obtain ⟨ho, he, _, _, _⟩ := popOldest_cons hord
      rw [ho, he]
      have htake : [id] = p.store.liveOrder.take 1 := by rw [hord]; simp
      have hdrop : rest = p.store.liveOrder.drop 1 := by rw [hord]; simp
      rw [htake, hdrop]
      exact notifyEvicted_take_sublist 1 h.viewSub (pairwise_lt_nodup h.store.ordered)
  · show (popOldest p.store).1.liveOrder.length ≤ (popOldest p.store).1.maxMessages
    rw [popOldest_max]
    cases hord : p.store.liveOrder with
    | nil => rw [popOldest_nil hord]; exact h.sizeLe
    | cons id rest =>
      obtain ⟨ho, _, _, _, _⟩ := popOldest_cons hord
      rw [ho]
      have := h.sizeLe
      rw [hord] at this
      simp only [List.length_cons] at this
      omega
  · show 1 ≤ (popOldest p.store).1.maxMessages
    rw [popOldest_max]
    exact h.capPos

theorem applyBufferSize_wf {p : Panel} (n : Nat) (h : PanelWF p) :
    PanelWF (applyBufferSize p n) := by
  by_cases hn : n = 0
  · simp only [applyBufferSize, setBufferSize, setCapacity, hn, if_pos rfl]
    exact h
  · have hwf1 : StoreWF { p.store with maxMessages := n } :=
      ⟨h.store.keysEq, h.store.ordered, h.store.bounded⟩
    obtain ⟨k, hk1, hk2⟩ :=
      evictN_shape ({ p.store with maxMessages := n } : LogStore).liveOrder.length
        { p.store with maxMessages := n }
    simp only [applyBufferSize, setBufferSize, setCapacity, if_neg hn]
    refine ⟨?_, ?_, ?_, ?_⟩
    · exact evictN_wf _ hwf1
    · show (notifyEvicted p.orderedMessages
          (evictN ({ p.store with maxMessages := n } : LogStore).liveOrder.length
            { p.store with maxMessages := n }).2).Sublist
          (evictN _ { p.store with maxMessages := n }).1.liveOrder
      rw [hk1, hk2]
      exact notifyEvicted_take_sublist k h.viewSub (pairwise_lt_nodup h.store.ordered)
    · show (evictN _ { p.store with maxMessages := n }).1.liveOrder.length
          ≤ (evictN _ { p.store with maxMessages := n }).1.maxMessages
      rw [evictN_max]
      exact evictN_le _ _ (Nat.le_add_left _ _)
    · show 1 ≤ (evictN _ { p.store with maxMessages := n }).1.maxMessages
      rw [evictN_max]
      dsimp only
      omega

theorem clearPanel_wf {p : Panel} (h : PanelWF p) : PanelWF (clearPanel p) := by
  refine ⟨⟨?_, ?_, ?_⟩, ?_, ?_, ?_⟩ <;> simp [clearPanel, clearStore]
  exact h.capPos

theorem onProcessTimer_wf {p : Panel} (eng : RegexEngine) (interval delta : Nat)
    (msgs : List LogRecord) (h : PanelWF p) :
    PanelWF (onProcessTimer eng interval delta msgs p) := by
  simp only [onProcessTimer]
  split
  · exact refilter_wf eng (fsUpdate_wf _ (processMessages_wf eng msgs h))
  · exact fsUpdate_wf _ (processMessages_wf eng msgs h)

theorem step_wf {eng : RegexEngine} {p q : Panel} (h : PanelWF p)
    (hs : Step eng p q) : PanelWF q := by
  cases hs with
  | process r => exact processMessage_wf eng r h
  | timer interval delta msgs => exact onProcessTimer_wf eng interval delta msgs h
  | refilterStep => exact refilter_wf eng h
  | pop => exact popMessage_wf h
  | bufferSize n => exact applyBufferSize_wf n h
  | clearStep => exact clearPanel_wf h
  | includeEdit pat => exact fsUpdate_wf _ h
  | excludeEdit pat => exact fsUpdate_wf _ h
  | regexToggle b => exact fsUpdate_wf _ h

theorem initPanel_wf {c : Nat} (hc : 1 ≤ c) : PanelWF (initPanel c) := by
  refine ⟨⟨rfl, ?_, ?_⟩, ?_, ?_, ?_⟩
  · exact List.Pairwise.nil
  · intro i hi
    simp [initPanel, initStore] at hi
  · exact List.nil_sublist _
  · simp [initPanel, initStore]
  · exact hc

theorem reachable_wf {eng : RegexEngine} {c : Nat} {p : Panel} (hc : 1 ≤ c)
    (h : Reachable eng c p) : PanelWF p := by
  induction h with
  | init => exact initPanel_wf hc
  | step hr hs ih => exact step_wf ih hs

theorem get_isSome_of_mem {s : LogStore} {id : Nat}
    (h : id ∈ s.messages.map Prod.fst) : (get s id).isSome = true := by
  unfold get
  rw [Option.isSome_map']
  rw [List.find?_isSome]
  obtain ⟨e, he, heq⟩ := List.mem_map.mp h
  exact ⟨e, he, by simp [heq]⟩

/-! ## Claims -/

/-- Claim C1: for every sequence of insertions the number of stored records
never exceeds the configured capacity `max_messages_`; an insertion into a
full store evicts (via `popMessage`) exactly the oldest still-live
identifier; and in the concrete scenario with capacity 3 and insertions
A, B, C, D in order, the live ids are exactly those of B, C, D, in order,
with A evicted. -/
theorem c1_capacity_invariant :
    (∀ (c : Nat) (rs : List LogRecord), 1 ≤ c →
        (insertAll (initStore c) rs).liveOrder.length ≤ c
          ∧ (insertAll (initStore c) rs).messages.length ≤ c)
      ∧ (∀ (s : LogStore) (r : LogRecord), s.liveOrder.length = s.maxMessages →
          1 ≤ s.maxMessages → (insert s r).2.2 = s.liveOrder.take 1)
      ∧ ((insertAll (initStore 3) [recA, recB, recC, recD]).liveOrder = [1, 2, 3]
          ∧ get (insertAll (initStore 3) [recA, recB, recC, recD]) 0 = none
          ∧ get (insertAll (initStore 3) [recA, recB, recC, recD]) 1 = some recB
          ∧ get (insertAll (initStore 3) [recA, recB, recC, recD]) 2 = some recC
          ∧ get (insertAll (initStore 3) [recA, recB, recC, recD]) 3 = some recD) := by
  refine ⟨?_, ?_, ?_⟩
  · intro c rs hc
    have hwf0 : StoreWF (initStore c) :=
      ⟨rfl, List.Pairwise.nil, by intro i hi; simp [initStore] at hi⟩
    have hsize := insertAll_size rs (initStore c) (by simp [initStore])
    have hlen : (insertAll (initStore c) rs).liveOrder.length ≤ c := by
      simpa [initStore] using hsize
    refine ⟨hlen, ?_⟩
    have hwf := insertAll_wf rs hwf0
    have hmm : (insertAll (initStore c) rs).messages.length
        = (insertAll (initStore c) rs).liveOrder.length := by
      rw [← hwf.keysEq, List.length_map]
    rw [hmm]
    exact hlen
  · intro s r hfull hpos
    exact insert_evicts_oldest r hfull hpos
  · exact ⟨by decide, by decide, by decide, by decide, by decide⟩

theorem c1_capacity_invariant_witness :
    ((insertAll (initStore 3) [recA, recB, recC, recD]).liveOrder.length ≤ 3
        ∧ (insertAll (initStore 3) [recA, recB, recC, recD]).messages.length ≤ 3)
      ∧ (insert demoStore3 recD).2.2 = demoStore3.liveOrder.take 1 :=
  ⟨c1_capacity_invariant.1 3 [recA, recB, recC, recD] (by decide),
   c1_capacity_invariant.2.1 demoStore3 recD (by decide) (by decide)⟩

/-- Claim C2: in every reachable state, every identifier in the filtered
view `ordered_messages_` refers to a record still present in `messages_`
(never to an evicted one), and the relative order of the view equals the
relative order of the store's live sequence: the view is a sublist of it. -/
theorem c2_view_subsequence (eng : RegexEngine) (c : Nat) (p : Panel)
    (hc : 1 ≤ c) (hr : Reachable eng c p) :
    (∀ id ∈ p.orderedMessages, (get p.store id).isSome = true)
      ∧ p.orderedMessages.Sublist p.store.liveOrder := by
  have hwf := reachable_wf hc hr
  refine ⟨?_, hwf.viewSub⟩
  intro id hid
  apply get_isSome_of_mem
  rw [hwf.store.keysEq]
  exact hwf.viewSub.subset hid

theorem c2_view_subsequence_witness :
    (∀ id ∈ demoPanelA.orderedMessages, (get demoPanelA.store id).isSome = true)
      ∧ demoPanelA.orderedMessages.Sublist demoPanelA.store.liveOrder :=
  c2_view_subsequence demoEngine 3 demoPanelA (by decide)
    (Reachable.step Reachable.init (Step.process (initPanel 3) recA))

/-- Claim C6: in every reachable state the number of entries in the
id-to-record mapping equals the length of the explicit ordered sequence of
live identifiers, and that sequence (oldest first) determines eviction:
popping removes exactly the front identifier of the sequence from both the
sequence and the mapping. -/
theorem c6_mapping_order_sync (eng : RegexEngine) (c : Nat) (p : Panel)
    (hc : 1 ≤ c) (hr : Reachable eng c p) :
    p.store.messages.length = p.store.liveOrder.length
      ∧ (∀ id rest, p.store.liveOrder = id :: rest →
          (popOldest p.store).2 = [id]
            ∧ (popOldest p.store).1.liveOrder = rest
            ∧ (popOldest p.store).1.messages.map Prod.fst = rest) := by
  have hwf := reachable_wf hc hr
  constructor
  · rw [← hwf.store.keysEq, List.length_map]
  · intro id rest hord
    obtain ⟨ho, he, _, _, _⟩ := popOldest_cons hord
    refine ⟨he, ho, ?_⟩
    have hpop := popOldest_wf hwf.store
    rw [hpop.keysEq, ho]

theorem c6_mapping_order_sync_witness :
    demoPanelABC.store.messages.length = demoPanelABC.store.liveOrder.length
      ∧ ((popOldest demoPanelABC.store).2 = [0]
          ∧ (popOldest demoPanelABC.store).1.liveOrder = [1, 2]
          ∧ (popOldest demoPanelABC.store).1.messages.map Prod.fst = [1, 2]) := by
  have h := c6_mapping_order_sync demoEngine 3 demoPanelABC (by decide)
    (Reachable.step (Reachable.step (Reachable.step Reachable.init
      (Step.process (initPanel 3) recA))
      (Step.process (processMessage demoEngine (initPanel 3) recA) recB))
      (Step.process (processMessage demoEngine
        (processMessage demoEngine (initPanel 3) recA) recB) recC))
  exact ⟨h.1, h.2 0 [1, 2] (by decide)⟩

/-- Claim C9: setting the store capacity to zero — the only rejectable
value of the unsigned `uint32_t` argument, which cannot represent negative
numbers — is rejected with `InvalidConfiguration` and leaves the panel, in
particular the configured capacity, unchanged; and in every reachable state
the configured capacity is at least 1. -/
theorem c9_capacity_validation (eng : RegexEngine) (c : Nat) (p : Panel)
    (hc : 1 ≤ c) (hr : Reachable eng c p) :
    (∀ s : LogStore, setCapacity s 0 = .error .invalidConfiguration)
      ∧ applyBufferSize p 0 = p
      ∧ 1 ≤ p.store.maxMessages :=
  ⟨fun _ => rfl, rfl, (reachable_wf hc hr).capPos⟩

theorem c9_capacity_validation_witness :
    setCapacity (initStore 5) 0 = .error .invalidConfiguration
      ∧ applyBufferSize (initPanel 3) 0 = initPanel 3
      ∧ 1 ≤ (initPanel 3).store.maxMessages := by
  have h := c9_capacity_validation demoEngine 3 (initPanel 3) (by decide) Reachable.init
  exact ⟨h.1 (initStore 5), h.2.1, h.2.2⟩

/-- Claim C3: `filter` passes a record exactly when the include matcher
matches at least one of the record's searchable fields and the exclude
matcher matches none of them; for nonempty patterns the per-criterion test
coincides with `matchesAny` of the corresponding compiled matcher under the
shared mode flag; an empty include pattern matches every record, an empty
exclude pattern matches no record, and with both patterns empty every
record passes. -/
theorem c3_passing_rule (eng : RegexEngine) (fs : FilterState) (r : LogRecord) :
    (filterRec eng fs r = true ↔
        ((∃ f ∈ recFields r, includeStr eng fs f = true)
          ∧ ∀ f ∈ recFields r, excludeStr eng fs f = false))
      ∧ (fs.includeFilter ≠ "" →
          includeAny eng fs (recFields r)
            = matchesAny eng (if fs.useRegex then Matcher.regex fs.includeRegex
                else Matcher.literal fs.includeFilter) (recFields r))
      ∧ (fs.excludeFilter ≠ "" →
          excludeAny eng fs (recFields r)
            = matchesAny eng (if fs.useRegex then Matcher.regex fs.excludeRegex
                else Matcher.literal fs.excludeFilter) (recFields r))
      ∧ (fs.includeFilter = "" → includeAny eng fs (recFields r) = true)
      ∧ (fs.excludeFilter = "" → excludeAny eng fs (recFields r) = false)
      ∧ (fs.includeFilter = "" → fs.excludeFilter = "" → filterRec eng fs r = true) := by
  refine ⟨?_, ?_, ?_, ?_, ?_, ?_⟩
  · simp only [filterRec, includeAny, excludeAny, Bool.and_eq_true, Bool.not_eq_true',
      List.any_eq_true, List.any_eq_false]
    constructor
    · rintro ⟨h1, h2⟩
      exact ⟨h1, fun f hf => Bool.eq_false_iff.mpr (h2 f hf)⟩
    · rintro ⟨h1, h2⟩
      exact ⟨h1, fun f hf => Bool.eq_false_iff.mp (h2 f hf)⟩
  · intro h
    have hfun : includeStr eng fs = matches1 eng
        (if fs.useRegex then Matcher.regex fs.includeRegex
         else Matcher.literal fs.includeFilter) := by
      funext x
      cases hreg : fs.useRegex <;> simp [includeStr, matches1, h, hreg]
    simp [includeAny, matchesAny, hfun]
  · intro h
    have hfun : excludeStr eng fs = matches1 eng
        (if fs.useRegex then Matcher.regex fs.excludeRegex
         else Matcher.literal fs.excludeFilter) := by
      funext x
      cases hreg : fs.useRegex <;> simp [excludeStr, matches1, h, hreg]
    simp [excludeAny, matchesAny, hfun]
  · intro h
    simp [includeAny, includeStr, h, recFields]
  · intro h
    simp [excludeAny, excludeStr, h]
  · intro h1 h2
    simp [filterRec, includeAny, excludeAny, includeStr, excludeStr, h1, h2, recFields]

theorem c3_passing_rule_witness :
    (filterRec demoEngine initFilterState recA = true)
      ∧ (includeAny demoEngine demoLitFS (recFields recA)
          = matchesAny demoEngine (if demoLitFS.useRegex
              then Matcher.regex demoLitFS.includeRegex
              else Matcher.literal demoLitFS.includeFilter) (recFields recA))
      ∧ (excludeAny demoEngine demoLitFS (recFields recA)
          = matchesAny demoEngine (if demoLitFS.useRegex
              then Matcher.regex demoLitFS.excludeRegex
              else Matcher.literal demoLitFS.excludeFilter) (recFields recA))
      ∧ (includeAny demoEngine initFilterState (recFields recA) = true)
      ∧ (excludeAny demoEngine initFilterState (recFields recA) = false) := by
  have h := c3_passing_rule demoEngine initFilterState recA
  have h2 := c3_passing_rule demoEngine demoLitFS recA
  exact ⟨h.2.2.2.2.2 rfl rfl, h2.2.1 (by decide), h2.2.2.1 (by decide),
    h.2.2.2.1 rfl, h.2.2.2.2.1 rfl⟩

theorem foldl_notifyInserted (eng : RegexEngine) (fs : FilterState) (s : LogStore) :
    ∀ (ids : List Nat) (acc : List Nat),
    ((ids.filterMap (fun id => (get s id).map (fun r => (id, r)))).foldl
        (fun v e => notifyInserted eng fs v e.1 e.2) acc)
      = acc ++ ids.filter (fun id => filterId eng fs s id) := by
  intro ids
  induction ids with
  | nil => intro acc; simp
  | cons id rest ih =>
    intro acc
    cases hg : get s id with
    | none =>
      have hf : filterId eng fs s id = false := by simp [filterId, hg]
      simp only [List.filterMap_cons, hg, Option.map_none', List.filter_cons, hf]
      simp [ih]
    | some r =>
      have hf : filterId eng fs s id = filterRec eng fs r := by simp [filterId, hg]
      simp only [List.filterMap_cons, hg, Option.map_some', List.foldl_cons,
        List.filter_cons, hf]
      cases hfr : filterRec eng fs r with
      | false =>
        have hni : notifyInserted eng fs acc id r = acc := by
          simp [notifyInserted, hfr]
        rw [hni, ih]
        simp [hfr]
      | true =>
        have hni : notifyInserted eng fs acc id r = acc ++ [id] := by
          simp [notifyInserted, hfr]
        rw [hni, ih]
        simp [hfr]

/-- Claim C4: a full rebuild (`refilter`) produces exactly the same ordered
identifier sequence as starting from an empty view and applying the
incremental per-record insertion path (`notifyInserted`, as used by
`processMessage`) to each live record in store order. -/
theorem c4_rebuild_equivalence (eng : RegexEngine) (p : Panel) :
    (refilter eng p).orderedMessages
      = (liveRecords p.store).foldl
          (fun v e => notifyInserted eng p.fs v e.1 e.2) [] := by
  unfold refilter liveRecords
  rw [foldl_notifyInserted]
  simp

/-- Claim C5: when a supplied regex pattern fails to compile, `compile`
reports `InvalidPattern`, the active matcher (the cached compiled include
regex and the stored include pattern) remains exactly what it was before
the call, the invalid state is surfaced through `valid_include_regex_`,
and no rebuild is scheduled or performed until a valid pattern is
supplied. -/
theorem c5_invalid_pattern (eng : RegexEngine) (fs : FilterState) (pat : String)
    (interval delta : Nat) (hreg : fs.useRegex = true) (hbad : eng.valid pat = false) :
    compile eng pat fs.useRegex = .error .invalidPattern
      ∧ setInclude eng fs pat = { fs with validInclude := false }
      ∧ (setInclude eng fs pat).includeRegex = fs.includeRegex
      ∧ (setInclude eng fs pat).includeFilter = fs.includeFilter
      ∧ (setInclude eng fs pat).needsRefilter = fs.needsRefilter
      ∧ (fs.needsRefilter = false →
          (refilterGate interval delta (setInclude eng fs pat)).2 = false) := by
  have hc : compile eng pat fs.useRegex = .error .invalidPattern := by
    rw [hreg]
    simp [compile, hbad]
  have hset : setInclude eng fs pat = { fs with validInclude := false } := by
    unfold setInclude
    rw [hc]
  refine ⟨hc, hset, by rw [hset], by rw [hset], by rw [hset], ?_⟩
  intro hnr
  rw [hset]
  simp [refilterGate, hnr]

theorem c5_invalid_pattern_witness :
    compile demoEngine "(" demoRegexFS.useRegex = .error .invalidPattern
      ∧ setInclude demoEngine demoRegexFS "(" = { demoRegexFS with validInclude := false }
      ∧ (refilterGate 200 100 (setInclude demoEngine demoRegexFS "(")).2 = false := by
  have h := c5_invalid_pattern demoEngine demoRegexFS "(" 200 100 rfl (by decide)
  exact ⟨h.1, h.2.1, h.2.2.2.2.2 rfl⟩

theorem runGate_not_pending (interval : Nat) :
    ∀ (ticks : List Nat) (fs : FilterState), fs.needsRefilter = false →
    (runGate interval ticks fs).2 = 0 ∧ (runGate interval ticks fs).1 = fs := by
  intro ticks
  induction ticks with
  | nil => intro fs h; exact ⟨rfl, rfl⟩
  | cons d rest ih =>
    intro fs h
    have hg : refilterGate interval d fs = (fs, false) := by
      simp [refilterGate, h]
    simp only [runGate, hg]
    obtain ⟨h1, h2⟩ := ih fs h
    simp [h1, h2]

/-- Claim C7: the full rebuild is executed at most once per rate-limit
interval: a rebuild fires on a tick only when a rebuild is pending
(`needs_refilter_`) and the accumulated time since the last criterion edit
(`refilter_timer_`) has reached the debounce interval; over any sequence of
ticks with no intervening criterion edit at most one rebuild fires; and as
long as the accumulated time since an edit reset the accumulator stays
below the interval, no rebuild fires at all. -/
theorem c7_debounced_rebuild (interval delta : Nat) (fs : FilterState)
    (ticks : List Nat) :
    ((refilterGate interval delta fs).2 = true →
        fs.needsRefilter = true ∧ interval ≤ fs.refilterTimer + delta)
      ∧ (runGate interval ticks fs).2 ≤ 1
      ∧ (fs.refilterTimer + sumL ticks < interval →
          (runGate interval ticks fs).2 = 0) := by
  refine ⟨?_, ?_, ?_⟩
  · intro h
    by_cases hp : fs.needsRefilter = true
    · refine ⟨hp, ?_⟩
      by_cases hi : interval ≤ fs.refilterTimer + delta
      · exact hi
      · exfalso
        unfold refilterGate at h
        rw [if_pos hp, if_neg hi] at h
        simp at h
    · exfalso
      unfold refilterGate at h
      rw [if_neg hp] at h
      simp at h
  · induction ticks generalizing fs with
    | nil => simp [runGate]
    | cons d rest ih =>
      simp only [runGate]
      by_cases hfire : (refilterGate interval d fs).2 = true
      · rw [if_pos hfire]
        have hnp : (refilterGate interval d fs).1.needsRefilter = false := by
          unfold refilterGate at hfire ⊢
          by_cases hp : fs.needsRefilter = true
          · rw [if_pos hp] at hfire ⊢
            by_cases hi : interval ≤ fs.refilterTimer + d
            · rw [if_pos hi]
            · rw [if_neg hi] at hfire
              simp at hfire
          · rw [if_neg hp] at hfire
            simp at hfire
        have hz := (runGate_not_pending interval rest _ hnp).1
        omega
      · rw [if_neg hfire]
        have := ih ((refilterGate interval d fs).1)
        omega
  · induction ticks generalizing fs with
    | nil => intro h; simp [runGate]
    | cons d rest ih =>
      intro h
      simp only [sumL] at h
      simp only [runGate]
      by_cases hp : fs.needsRefilter = true
      · have hni : ¬ interval ≤ fs.refilterTimer + d := by omega
        have hg : refilterGate interval d fs
            = ({ fs with refilterTimer := fs.refilterTimer + d }, false) := by
          unfold refilterGate
          rw [if_pos hp, if_neg hni]
        rw [hg]
        have hrec := ih { fs with refilterTimer := fs.refilterTimer + d }
          (by dsimp only; omega)
        simpa using hrec
      · have hg : refilterGate interval d fs = (fs, false) := by
          simp [refilterGate, hp]
        rw [hg]
        have hrec := ih fs (by omega)
        simpa using hrec

theorem c7_debounced_rebuild_witness :
    (demoPendingFS.needsRefilter = true
        ∧ 200 ≤ demoPendingFS.refilterTimer + 250)
      ∧ (runGate 200 [250, 250] demoPendingFS).2 ≤ 1
      ∧ (runGate 200 [50, 60] demoPendingFS).2 = 0 := by
  have h1 := c7_debounced_rebuild 200 250 demoPendingFS [250, 250]
  have h2 := c7_debounced_rebuild 200 250 demoPendingFS [50, 60]
  exact ⟨h1.1 (by decide), h1.2.1, h2.2.2 (by decide)⟩

/-- Claim C8: the staging queue never rejects the producer —
`incomingMessage` is total and its producer-facing result is always
success; when the bounded capacity would be exceeded the oldest buffered
records are dropped, the number of dropped records is added to the exposed
counter, and the resulting queue never exceeds the capacity. -/
theorem c8_ingestion_overflow (buf : IngestionBuffer) (r : LogRecord) :
    incomingMessageE buf r = .ok (incomingMessage buf r)
      ∧ (incomingMessage buf r).queue
          = (buf.queue ++ [r]).drop (buf.queue.length + 1 - buf.capacity)
      ∧ (incomingMessage buf r).droppedCount
          = buf.droppedCount + (buf.queue.length + 1 - buf.capacity)
      ∧ (incomingMessage buf r).queue.length ≤ buf.capacity := by
  refine ⟨rfl, ?_, ?_, ?_⟩
  · simp [incomingMessage]
  · simp [incomingMessage]
  · simp only [incomingMessage, List.length_drop, List.length_append,
      List.length_singleton]
    omega

/-- Claim C10: the include and exclude criteria always share one
interpretation mode: the single flag `use_regex_` selects regex versus
literal matching for both at once — `onRegexChecked` sets it for both,
`setInclude` / `setExclude` take no per-criterion mode argument and leave
the flag untouched, and for nonempty patterns both per-string tests are
governed by the same flag. -/
theorem c10_shared_regex_mode (eng : RegexEngine) (fs : FilterState) (b : Bool)
    (pat s : String) :
    (onRegexChecked eng fs b).useRegex = b
      ∧ (setInclude eng fs pat).useRegex = fs.useRegex
      ∧ (setExclude eng fs pat).useRegex = fs.useRegex
      ∧ (fs.includeFilter ≠ "" →
          includeStr eng fs s
            = (if fs.useRegex then eng.search fs.includeRegex s
               else containsSub fs.includeFilter s))
      ∧ (fs.excludeFilter ≠ "" →
          excludeStr eng fs s
            = (if fs.useRegex then eng.search fs.excludeRegex s
               else containsSub fs.excludeFilter s)) := by
  refine ⟨?_, ?_, ?_, ?_, ?_⟩
  · cases b <;> simp [onRegexChecked]
  · unfold setInclude
    cases hc : compile eng pat fs.useRegex with
    | ok m => cases m <;> rfl
    | error e => rfl
  · unfold setExclude
    cases hc : compile eng pat fs.useRegex with
    | ok m => cases m <;> rfl
    | error e => rfl
  · intro h
    simp [includeStr, h]
  · intro h
    simp [excludeStr, h]

theorem c10_shared_regex_mode_witness :
    includeStr demoEngine demoLitFS "an ERROR here"
        = (if demoLitFS.useRegex then demoEngine.search demoLitFS.includeRegex "an ERROR here"
           else containsSub demoLitFS.includeFilter "an ERROR here")
      ∧ excludeStr demoEngine demoLitFS "debugging"
        = (if demoLitFS.useRegex then demoEngine.search demoLitFS.excludeRegex "debugging"
           else containsSub demoLitFS.excludeFilter "debugging")
      ∧ (onRegexChecked demoEngine demoLitFS true).useRegex = true := by
  have h := c10_shared_regex_mode demoEngine demoLitFS true "x" "an ERROR here"
  have h2 := c10_shared_regex_mode demoEngine demoLitFS true "x" "debugging"
  exact ⟨h.2.2.2.1 (by decide), h2.2.2.2.2 (by decide), h.1⟩

end Rosout
